import Mathlib

/-!
Verification of the character-level RNN name generator
(`WEEK05/RNN-task.py`): text processing (`to_matrix`), the unrolled
training loss, and the sampling loop (`generate_sample`), modelled as a
shallow embedding.  Machine floats are modelled as exact rationals; the
natural logarithm used inside the categorical cross-entropy is an
explicit function parameter, so every definition stays executable.
-/

set_option autoImplicit false

open BigOperators

/-- The reserved start symbol (`start_token = " "` in the source). -/
def start_token : Char := ' '

/-- The reserved padding symbol (`pad_token = "#"` in the source). -/
def pad_token : Char := '#'

/-- Python exceptions that the modelled code can raise.  `keyError` and
`indexError` are `LookupError` kinds in Python's hierarchy; `valueError`
and `typeError` are not. -/
inductive PyErr where
  | valueError
  | typeError
  | keyError (c : Char)
  | indexError (ix : Nat)
deriving DecidableEq

/-- Python's `LookupError` class covers exactly `KeyError` and
`IndexError`. -/
def PyErr.isLookup : PyErr → Bool
  | .keyError _ => true
  | .indexError _ => true
  | _ => false

deriving instance DecidableEq for Except

/-- The vocabulary: the `tokens` list of distinct characters obtained by
enumerating `set(''.join(names))`.  Which enumeration the `set` produces
is arbitrary, so theorems quantify over every duplicate-free list. -/
structure Vocab where
  tokens : List Char
  nodup : tokens.Nodup

/-- Index of the first occurrence of a character in a token list; with a
duplicate-free list this is exactly the dictionary built by
`for i in range(n_tokens): token_to_id[tokens[i]] = i`. -/
def lookupIdx : List Char → Char → Option Nat
  | [], _ => none
  | t :: ts, c => if c = t then some 0 else Option.map (fun n => n + 1) (lookupIdx ts c)

/-- `token_to_id` dictionary lookup (`token_to_id.get` returns `none`
for an absent symbol, `token_to_id[c]` raises `KeyError`). -/
def token_to_id (V : Vocab) (c : Char) : Option Nat :=
  lookupIdx V.tokens c

/-- Collects a list of optional values, failing if any entry is `none`
(NumPy raises `TypeError` when a `None` is assigned into an int row). -/
def optList {α : Type} : List (Option α) → Option (List α)
  | [] => some []
  | none :: _ => none
  | some a :: l => Option.map (fun l2 => a :: l2) (optList l)

/-- Python's `max` over a list: raises `ValueError` on an empty list,
otherwise folds the binary maximum. -/
def listMax : List Nat → Except PyErr Nat
  | [] => .error .valueError
  | x :: xs => .ok (xs.foldl max x)

/-- The effective width `max_len or max(map(len, names))`: an explicit
`0` is falsy in Python, so it behaves exactly like an omitted argument. -/
def effectiveLen (names : List (List Char)) : Option Nat → Except PyErr Nat
  | some m => if m = 0 then listMax (names.map List.length) else .ok m
  | none => listMax (names.map List.length)

/-- One row of `to_matrix`: `name_ix = list(map(token_to_id.get, name))`
followed by `names_ix[i, :len(name_ix)] = name_ix`.  A row longer than
the width breaks NumPy broadcasting (`ValueError`); a `None` entry breaks
the integer cast (`TypeError`); otherwise the row is the encoded ids
followed by the `pad` fill that `np.zeros(...) + pad` put there. -/
def buildRow (V : Vocab) (eff pad : Nat) (s : List Char) : Except PyErr (List Nat) :=
  let name_ix := s.map (fun c => token_to_id V c)
  if eff < name_ix.length then .error .valueError
  else
    match optList name_ix with
    | some ids => .ok (ids ++ List.replicate (eff - name_ix.length) pad)
    | none => .error .typeError

/-- Builds every row in order, surfacing the first row's exception. -/
def mapRows (V : Vocab) (eff pad : Nat) : List (List Char) → Except PyErr (List (List Nat))
  | [] => .ok []
  | s :: rest =>
    match buildRow V eff pad s with
    | .error e => .error e
    | .ok row =>
      match mapRows V eff pad rest with
      | .error e => .error e
      | .ok rows => .ok (row :: rows)

/-- `to_matrix(names, max_len=None, pad=0)` from the source. -/
def to_matrix (V : Vocab) (names : List (List Char)) (max_len : Option Nat) (pad : Nat) :
    Except PyErr (List (List Nat)) :=
  match effectiveLen names max_len with
  | .error e => .error e
  | .ok eff => mapRows V eff pad names

/-- The recurrent network.  The learned layers (`embed_x`, `get_h_next`,
`get_probas`) are opaque trained parameters, so `rnn_one_step` is kept
abstract: it maps a token id and a hidden state to a distribution over
token ids and the next hidden state, exactly the interface of the
source's `rnn_one_step(x_t, h_t)`.  `h0` is the all-zeros initial state
(`tf.zeros`, also `h_t.initial_value` on the sampling side). -/
structure RNNModel (H : Type) where
  h0 : H
  rnn_one_step : Nat → H → (Nat → ℚ) × H

/-- The all-zero distribution, used only as a `getD` default. -/
def zeroDist : Nat → ℚ := fun _ => 0

/-- The training-loop unroll body: for every column `t` of the input,
apply `rnn_one_step`, carry the hidden state forward and collect the
emitted distribution (`for t in range(MAX_LENGTH): ...`), per batch row. -/
def unrollAll {H : Type} (M : RNNModel H) : List Nat → H → List (Nat → ℚ)
  | [], _ => []
  | x :: xs, h =>
    let ph := M.rnn_one_step x h
    ph.1 :: unrollAll M xs ph.2

/-- The code's `predicted_probas` for one batch row: unroll over every
column, then discard the final step's distribution
(`predicted_probas[:, :-1, :]`). -/
def predicted_probas_code {H : Type} (M : RNNModel H) (xs : List Nat) : List (Nat → ℚ) :=
  (unrollAll M xs M.h0).dropLast

/-- Modelled from the spec: the Trainer's unroll as the spec words it,
"for t = 0 .. max_length-2 (inclusive), feeds column t of the batch",
i.e. the final column is never fed and nothing is discarded afterwards. -/
def predicted_probas_spec {H : Type} (M : RNNModel H) (xs : List Nat) : List (Nat → ℚ) :=
  unrollAll M (xs.take (xs.length - 1)) M.h0

/-- `tf.one_hot` over `n` classes: out-of-range ids give an all-zero
row, in-range ids a single 1 at the id. -/
def one_hot (n k : Nat) : Nat → ℚ :=
  fun i => if i = k ∧ k < n then 1 else 0

/-- Keras `categorical_crossentropy(target, output)` on probability
vectors of width `n`: `-Σ_i target_i * log(output_i)`.  The natural
logarithm is passed in as an explicit function so the definition stays
exact and executable. -/
def categorical_crossentropy (log : ℚ → ℚ) (n : Nat) (target output : Nat → ℚ) : ℚ :=
  -(∑ i in Finset.range n, target i * log (output i))

/-- `predictions_matrix`: the per-step distributions of every row,
flattened row-major (`tf.reshape(predicted_probas, [-1, n_tokens])`). -/
def predictions_matrix {H : Type} (M : RNNModel H) (batch : List (List Nat)) :
    List (Nat → ℚ) :=
  (batch.map (fun r => predicted_probas_code M r)).flatten

/-- `answers_matrix`: columns `1..` of the batch, flattened row-major
and one-hot encoded (`tf.one_hot(tf.reshape(input_sequence[:, 1:], [-1]))`). -/
def answers_matrix (n : Nat) (batch : List (List Nat)) : List (Nat → ℚ) :=
  ((batch.map (fun r => r.drop 1)).flatten).map (fun k => one_hot n k)

/-- `tf.reduce_mean` over a flat list. -/
def listMean (l : List ℚ) : ℚ :=
  l.sum / (l.length : ℚ)

/-- The scalar training loss:
`tf.reduce_mean(categorical_crossentropy(answers_matrix, predictions_matrix))`. -/
def loss {H : Type} (log : ℚ → ℚ) (M : RNNModel H) (n : Nat) (batch : List (List Nat)) : ℚ :=
  listMean (List.zipWith (fun a p => categorical_crossentropy log n a p)
    (answers_matrix n batch) (predictions_matrix M batch))

/-- One call of the training step: `s.run([loss, optimize],
{input_sequence: batch})`.  The placeholder is declared with shape
`(None, MAX_LENGTH)`, so feeding a batch whose column count differs from
the unroll length `L` raises `ValueError`; otherwise the scalar loss is
returned. -/
def train_step {H : Type} (M : RNNModel H) (log : ℚ → ℚ) (n L : Nat)
    (batch : List (List Nat)) : Except PyErr ℚ :=
  if batch.all (fun r => r.length == L) then .ok (loss log M n batch)
  else .error .valueError

/-- Encoding of the seed phrase,
`[token_to_id[token] for token in seed_phrase]`: `KeyError` at the first
symbol absent from the vocabulary. -/
def encodeSeed (V : Vocab) : List Char → Except PyErr (List Nat)
  | [] => .ok []
  | c :: rest =>
    match token_to_id V c with
    | some i => (encodeSeed V rest).map (fun l => i :: l)
    | none => .error (.keyError c)

/-- Decoding of an id sequence, `[tokens[ix] for ix in x_sequence]`:
`IndexError` when an id is out of range of the token list. -/
def decodeAll (V : Vocab) : List Nat → Except PyErr (List Char)
  | [] => .ok []
  | ix :: rest =>
    match V.tokens.get? ix with
    | some c => (decodeAll V rest).map (fun cs => c :: cs)
    | none => .error (.indexError ix)

/-- The seed replay loop, `for ix in x_sequence[:-1]`: feed each id,
keep only the updated hidden state. -/
def replay_hidden {H : Type} (M : RNNModel H) (ids : List Nat) (h : H) : H :=
  ids.foldl (fun h x => (M.rnn_one_step x h).2) h

/-- The sampling loop, `for _ in range(max_length - len(seed_phrase))`:
feed the last id, draw the next id from the emitted distribution via the
random oracle `rand` (modelling `np.random.choice(n_tokens, p=...)`,
indexed by the draw number), append it, and continue with the updated
hidden state.  There is no other stopping condition. -/
def genLoop {H : Type} (M : RNNModel H) (rand : Nat → (Nat → ℚ) → Nat) :
    Nat → Nat → Nat → H → List Nat
  | 0, _, _, _ => []
  | fuel + 1, k, last, h =>
    let ph := M.rnn_one_step last h
    let nxt := rand k ph.1
    nxt :: genLoop M rand fuel (k + 1) nxt ph.2

/-- `generate_sample(seed_phrase, max_length)` from the source: encode
the seed (`KeyError` on absent symbols), reset the hidden state, replay
the seed but its last id, run `max_length - len(seed_phrase)` sampling
iterations, and return the decoded ids with every pad symbol filtered
out.  An empty seed hits `x_sequence[-1]` (`IndexError`) as soon as the
loop runs at least once. -/
def generate_sample {H : Type} (V : Vocab) (M : RNNModel H)
    (rand : Nat → (Nat → ℚ) → Nat) (seed_phrase : List Char) (max_length : Nat) :
    Except PyErr (List Char) :=
  match encodeSeed V seed_phrase with
  | .error e => .error e
  | .ok x_sequence =>
    match x_sequence.getLast? with
    | none => if max_length = 0 then .ok [] else .error (.indexError 0)
    | some last =>
      let h := replay_hidden M x_sequence.dropLast M.h0
      let full := x_sequence ++ genLoop M rand (max_length - x_sequence.length) 0 last h
      match decodeAll V full with
      | .error e => .error e
      | .ok chars => .ok (chars.filter (fun c => c ≠ pad_token))

theorem unrollAll_length {H : Type} (M : RNNModel H) (xs : List Nat) :
    ∀ h, (unrollAll M xs h).length = xs.length := by
  induction xs with
  | nil => intro h; rfl
  | cons x xs ih => intro h; simp [unrollAll, ih]

theorem unrollAll_dropLast {H : Type} (M : RNNModel H) (xs : List Nat) :
    ∀ h, (unrollAll M xs h).dropLast = unrollAll M (xs.take (xs.length - 1)) h := by
  induction xs with
  | nil => intro h; rfl
  | cons x xs ih =>
    intro h
    cases xs with
    | nil => rfl
    | cons y ys =>
      rw [show unrollAll M (x :: y :: ys) h
            = (M.rnn_one_step x h).1 :: unrollAll M (y :: ys) (M.rnn_one_step x h).2 from rfl]
      rw [List.dropLast_cons_of_ne_nil]
      · rw [ih]
        simp only [List.length_cons, Nat.add_sub_cancel, List.take_succ_cons]
        rfl
      · have hlen := unrollAll_length M (y :: ys) (M.rnn_one_step x h).2
        intro hnil
        rw [hnil] at hlen
        simp at hlen

/-- C2: unrolling the transition function over every column starting
from the zero hidden state and then discarding the final step's
distribution yields exactly the distributions of unrolling only columns
`0 .. L-2`; both shapes give `L-1` per-step distributions. -/
theorem predicted_probas_code_eq_spec {H : Type} (M : RNNModel H) (xs : List Nat) :
    predicted_probas_code M xs = predicted_probas_spec M xs ∧
    (predicted_probas_code M xs).length = xs.length - 1 := by
  constructor
  · exact unrollAll_dropLast M xs M.h0
  · simp [predicted_probas_code, List.length_dropLast, unrollAll_length]

/-- C10: an explicit `max_len = 0` is falsy in `max_len or
max(map(len, names))`, so `to_matrix` behaves exactly as if `max_len`
were omitted. -/
theorem to_matrix_zero_maxlen_eq_none (V : Vocab) (names : List (List Char)) (pad : Nat) :
    to_matrix V names (some 0) pad = to_matrix V names none pad := rfl

/-- A vocabulary enumeration the `set` construction may legitimately
produce: duplicate-free, with the pad symbol at index 3. -/
def V4 : Vocab := ⟨[' ', 'a', 'b', '#'], by decide⟩

/-- C4 (code bug evidence): with vocabulary ordering
`[' ', 'a', 'b', '#']` the pad symbol has id 3, yet the training batch
built by `to_matrix(..., max_len=MAX_LENGTH)` with the default `pad=0`
fills the padding position of row `" a"` with the integer 0. -/
theorem to_matrix_pad_not_pad_id :
    to_matrix V4 [[' ', 'a']] (some 3) 0 = Except.ok [[0, 1, 0]] ∧
    token_to_id V4 pad_token = some 3 := by decide

/-- A trivial concrete network over the unit hidden state, used to
evaluate the sampling loop on concrete inputs. -/
def M0 : RNNModel Unit := ⟨(), fun _ _ => ((fun _ => 0), ())⟩

/-- A concrete random oracle that always draws id 0. -/
def rand0 : Nat → (Nat → ℚ) → Nat := fun _ _ => 0

/-- A small concrete vocabulary containing the start and pad symbols. -/
def V5 : Vocab := ⟨[' ', '#', 'A', 'l'], by decide⟩

/-- C5 counterexample: the seed `"Al"` does not begin with the start
symbol, yet `generate_sample` raises nothing and returns output — the
source never checks the seed's first symbol. -/
theorem generate_sample_no_seed_check_cex :
    (['A', 'l'].head? ≠ some start_token) ∧
    generate_sample V5 M0 rand0 ['A', 'l'] 2 = Except.ok ['A', 'l'] := by decide

/-- C7 counterexample: no sequence in `[['q']]` exceeds `max_length = 1`,
so the claim predicts success, but the out-of-vocabulary symbol makes
`to_matrix` fail — and with `TypeError`, not `ValueError`. -/
theorem to_matrix_absent_symbol_cex :
    (['q'].length ≤ 1) ∧ to_matrix V5 [['q']] (some 1) 0 = Except.error PyErr.typeError := by
  decide

/-- C8 counterexample: in the Batcher an absent symbol does not raise a
`LookupError` kind at all: `token_to_id.get` yields a missing value and
the row assignment fails with `TypeError`. -/
theorem to_matrix_encode_typeerror_cex :
    to_matrix V5 [['q']] none 0 = Except.error PyErr.typeError ∧
    PyErr.typeError.isLookup = false := by decide

theorem lookupIdx_lt_length (ts : List Char) (c : Char) :
    ∀ i, lookupIdx ts c = some i → i < ts.length := by
  induction ts with
  | nil => intro i h; simp [lookupIdx] at h
  | cons t ts ih =>
    intro i h
    by_cases hc : c = t
    · simp [lookupIdx, hc] at h
      simp [← h]
    · simp only [lookupIdx, if_neg hc] at h
      cases hj : lookupIdx ts c with
      | none => rw [hj] at h; simp at h
      | some j =>
        rw [hj] at h
        simp at h
        have := ih j hj
        simp only [List.length_cons]
        omega

theorem lookupIdx_mem (ts : List Char) (c : Char) (hc : c ∈ ts) :
    ∃ i, lookupIdx ts c = some i := by
  induction ts with
  | nil => cases hc
  | cons t ts ih =>
    by_cases h : c = t
    · exact ⟨0, by simp [lookupIdx, h]⟩
    · have hc2 : c ∈ ts := by
        rcases List.mem_cons.mp hc with h1 | h1
        · exact absurd h1 h
        · exact h1
      obtain ⟨i, hi⟩ := ih hc2
      exact ⟨i + 1, by simp [lookupIdx, h, hi]⟩

theorem lookupIdx_not_mem (ts : List Char) (c : Char) (hc : c ∉ ts) :
    lookupIdx ts c = none := by
  induction ts with
  | nil => rfl
  | cons t ts ih =>
    have h1 : ¬ c = t := fun h => hc (by simp [h])
    have h2 : c ∉ ts := fun h => hc (by simp [h])
    simp [lookupIdx, h1, ih h2]

theorem encodeSeed_ok (V : Vocab) (seed : List Char) (h : ∀ c ∈ seed, c ∈ V.tokens) :
    ∃ ids, encodeSeed V seed = Except.ok ids ∧ ids.length = seed.length ∧
      ∀ i ∈ ids, i < V.tokens.length := by
  induction seed with
  | nil => exact ⟨[], rfl, rfl, by simp⟩
  | cons c rest ih =>
    obtain ⟨i, hi⟩ := lookupIdx_mem V.tokens c (h c (by simp))
    obtain ⟨ids, hids, hlen, hb⟩ := ih (fun d hd => h d (by simp [hd]))
    refine ⟨i :: ids, ?_, by simp [hlen], ?_⟩
    · simp [encodeSeed, token_to_id, hi, hids, Except.map]
    · intro j hj
      rcases List.mem_cons.mp hj with rfl | hj2
      · exact lookupIdx_lt_length _ _ _ hi
      · exact hb j hj2

theorem encodeSeed_absent (V : Vocab) (seed : List Char)
    (h : ∃ c ∈ seed, c ∉ V.tokens) :
    ∃ c, c ∉ V.tokens ∧ encodeSeed V seed = Except.error (.keyError c) := by
  induction seed with
  | nil => simp at h
  | cons c rest ih =>
    by_cases hc : c ∈ V.tokens
    · obtain ⟨i, hi⟩ := lookupIdx_mem _ _ hc
      have h2 : ∃ d ∈ rest, d ∉ V.tokens := by
        obtain ⟨d, hd, hdn⟩ := h
        rcases List.mem_cons.mp hd with rfl | hd2
        · exact absurd hc hdn
        · exact ⟨d, hd2, hdn⟩
      obtain ⟨d, hdn, herr⟩ := ih h2
      exact ⟨d, hdn, by simp [encodeSeed, token_to_id, hi, herr, Except.map]⟩
    · exact ⟨c, hc, by simp [encodeSeed, token_to_id, lookupIdx_not_mem _ _ hc]⟩

theorem decodeAll_ok (V : Vocab) (l : List Nat) (h : ∀ i ∈ l, i < V.tokens.length) :
    ∃ chars, decodeAll V l = Except.ok chars ∧ chars.length = l.length := by
  induction l with
  | nil => exact ⟨[], rfl, rfl⟩
  | cons ix rest ih =>
    have hix : ix < V.tokens.length := h ix (by simp)
    obtain ⟨chars, hchars, hlen⟩ := ih (fun j hj => h j (by simp [hj]))
    refine ⟨V.tokens.get ⟨ix, hix⟩ :: chars, ?_, by simp [hlen]⟩
    simp [decodeAll, List.getElem?_eq_getElem hix, hchars, Except.map, List.get_eq_getElem]

theorem genLoop_length {H : Type} (M : RNNModel H) (rand : Nat → (Nat → ℚ) → Nat) :
    ∀ (fuel k last : Nat) (h : H), (genLoop M rand fuel k last h).length = fuel := by
  intro fuel
  induction fuel with
  | zero => intro k last h; rfl
  | succ m ih => intro k last h; simp [genLoop, ih]

theorem genLoop_mem_lt {H : Type} (M : RNNModel H) (rand : Nat → (Nat → ℚ) → Nat) (n : Nat)
    (hrand : ∀ k p, rand k p < n) :
    ∀ (fuel k last : Nat) (h : H), ∀ i ∈ genLoop M rand fuel k last h, i < n := by
  intro fuel
  induction fuel with
  | zero => intro k last h i hi; simp [genLoop] at hi
  | succ m ih =>
    intro k last h i hi
    simp only [genLoop] at hi
    rcases List.mem_cons.mp hi with rfl | hi2
    · exact hrand _ _
    · exact ih _ _ _ i hi2

theorem getLast?_some_of_ne_nil {α : Type} (l : List α) (h : l ≠ []) :
    ∃ a, l.getLast? = some a :=
  ⟨l.getLast h, List.getLast?_eq_getLast l h⟩

theorem generate_sample_eq {H : Type} (V : Vocab) (M : RNNModel H)
    (rand : Nat → (Nat → ℚ) → Nat) (seed : List Char) (maxLen : Nat)
    (ids : List Nat) (last : Nat)
    (hids : encodeSeed V seed = Except.ok ids)
    (hlast : ids.getLast? = some last) :
    generate_sample V M rand seed maxLen
      = match decodeAll V (ids ++ genLoop M rand (maxLen - ids.length) 0 last
          (replay_hidden M ids.dropLast M.h0)) with
        | .error e => .error e
        | .ok chars => .ok (chars.filter (fun c => c ≠ pad_token)) := by
  simp only [generate_sample, hids, hlast]

theorem generate_sample_key_error {H : Type} (V : Vocab) (M : RNNModel H)
    (rand : Nat → (Nat → ℚ) → Nat) (seed : List Char) (maxLen : Nat) (e : PyErr)
    (hids : encodeSeed V seed = Except.error e) :
    generate_sample V M rand seed maxLen = Except.error e := by
  unfold generate_sample
  rw [hids]

theorem generate_sample_ok {H : Type} (M : RNNModel H) (V : Vocab)
    (rand : Nat → (Nat → ℚ) → Nat) (seed : List Char) (maxLen : Nat)
    (hne : seed ≠ [])
    (hvocab : ∀ c ∈ seed, c ∈ V.tokens)
    (hrand : ∀ k p, rand k p < V.tokens.length) :
    ∃ ids gen chars,
      encodeSeed V seed = Except.ok ids ∧
      ids.length = seed.length ∧
      gen.length = maxLen - seed.length ∧
      decodeAll V (ids ++ gen) = Except.ok chars ∧
      chars.length = ids.length + gen.length ∧
      generate_sample V M rand seed maxLen
        = Except.ok (chars.filter (fun c => c ≠ pad_token)) := by
  obtain ⟨ids, hids, hlen, hbound⟩ := encodeSeed_ok V seed hvocab
  have hids_ne : ids ≠ [] := by
    intro h0
    rw [h0] at hlen
    exact hne (List.length_eq_zero.mp hlen.symm)
  obtain ⟨last, hlast⟩ := getLast?_some_of_ne_nil ids hids_ne
  have hmem : ∀ i ∈ ids ++ genLoop M rand (maxLen - ids.length) 0 last
      (replay_hidden M ids.dropLast M.h0), i < V.tokens.length := by
    intro i hi
    rcases List.mem_append.mp hi with hi2 | hi2
    · exact hbound i hi2
    · exact genLoop_mem_lt M rand _ hrand _ _ _ _ i hi2
  obtain ⟨chars, hchars, hcl⟩ := decodeAll_ok V _ hmem
  refine ⟨ids, _, chars, hids, hlen, ?_, hchars, ?_, ?_⟩
  · rw [genLoop_length, hlen]
  · simp [hcl, genLoop_length]
  · rw [generate_sample_eq V M rand seed maxLen ids last hids hlast, hchars]

/-- C3: for a seed beginning with the start symbol, entirely inside the
vocabulary and no longer than `max_length`, `generate_sample` runs
exactly `max_length - len(seed)` sampling iterations — whatever the
random draws produce, pad included — and returns the decoded
concatenation of seed ids and generated ids with every pad symbol
filtered out, hence at most `max_length` characters and pad-free. -/
theorem generate_sample_budget_and_filter {H : Type} (M : RNNModel H) (V : Vocab)
    (rand : Nat → (Nat → ℚ) → Nat) (seed : List Char) (maxLen : Nat)
    (hstart : seed.head? = some start_token)
    (hvocab : ∀ c ∈ seed, c ∈ V.tokens)
    (hlen : seed.length ≤ maxLen)
    (hrand : ∀ k p, rand k p < V.tokens.length) :
    ∃ ids gen chars out,
      encodeSeed V seed = Except.ok ids ∧
      gen.length = maxLen - seed.length ∧
      decodeAll V (ids ++ gen) = Except.ok chars ∧
      out = chars.filter (fun c => c ≠ pad_token) ∧
      generate_sample V M rand seed maxLen = Except.ok out ∧
      out.length ≤ maxLen ∧
      pad_token ∉ out := by
  have hne : seed ≠ [] := by
    intro h0
    rw [h0] at hstart
    simp at hstart
  obtain ⟨ids, gen, chars, hids, hidlen, hgenlen, hdec, hclen, hout⟩ :=
    generate_sample_ok M V rand seed maxLen hne hvocab hrand
  refine ⟨ids, gen, chars, _, hids, hgenlen, hdec, rfl, hout, ?_, ?_⟩
  · calc (chars.filter (fun c => c ≠ pad_token)).length
        ≤ chars.length := List.length_filter_le _ _
      _ = ids.length + gen.length := hclen
      _ = seed.length + (maxLen - seed.length) := by rw [hidlen, hgenlen]
      _ = maxLen := Nat.add_sub_cancel' hlen
  · intro hmem
    have := (List.mem_filter.mp hmem).2
    simp at this

/-- Witness for C3: seed `" "`, budget 3, over the concrete vocabulary
`V5` and network `M0`. -/
theorem generate_sample_budget_and_filter_w :
    ∃ ids gen chars out,
      encodeSeed V5 [' '] = Except.ok ids ∧
      gen.length = 3 - [' '].length ∧
      decodeAll V5 (ids ++ gen) = Except.ok chars ∧
      out = chars.filter (fun c => c ≠ pad_token) ∧
      generate_sample V5 M0 rand0 [' '] 3 = Except.ok out ∧
      out.length ≤ 3 ∧
      pad_token ∉ out :=
  generate_sample_budget_and_filter M0 V5 rand0 [' '] 3 (by decide) (by decide)
    (by decide) (fun _ _ => by simp [rand0, V5])

/-- C5 (amended): `generate_sample` performs no start-symbol check at
all — for every non-empty seed whose symbols are in the vocabulary it
proceeds and returns output, whether or not the seed begins with the
start symbol; it can only fail on out-of-vocabulary symbols. -/
theorem generate_sample_no_start_check {H : Type} (M : RNNModel H) (V : Vocab)
    (rand : Nat → (Nat → ℚ) → Nat) (seed : List Char) (maxLen : Nat)
    (hne : seed ≠ [])
    (hvocab : ∀ c ∈ seed, c ∈ V.tokens)
    (hrand : ∀ k p, rand k p < V.tokens.length) :
    ∃ out, generate_sample V M rand seed maxLen = Except.ok out := by
  obtain ⟨ids, gen, chars, _, _, _, _, _, hout⟩ :=
    generate_sample_ok M V rand seed maxLen hne hvocab hrand
  exact ⟨_, hout⟩

/-- Witness for the amended C5: the seed `"A"` does not begin with the
start symbol, yet generation succeeds. -/
theorem generate_sample_no_start_check_w :
    ∃ out, generate_sample V5 M0 rand0 ['A'] 3 = Except.ok out :=
  generate_sample_no_start_check M0 V5 rand0 ['A'] 3 (by decide) (by decide)
    (fun _ _ => by simp [rand0, V5])

theorem optList_encode_ok (V : Vocab) (s : List Char) (h : ∀ c ∈ s, c ∈ V.tokens) :
    ∃ ids, optList (s.map (fun c => token_to_id V c)) = some ids ∧ ids.length = s.length := by
  induction s with
  | nil => exact ⟨[], rfl, rfl⟩
  | cons c rest ih =>
    obtain ⟨i, hi⟩ := lookupIdx_mem V.tokens c (h c (by simp))
    have hi2 : token_to_id V c = some i := hi
    obtain ⟨ids, hids, hl⟩ := ih (fun d hd => h d (by simp [hd]))
    refine ⟨i :: ids, ?_, by simp [hl]⟩
    simp [optList, hi2, hids]

theorem optList_encode_absent (V : Vocab) (s : List Char) (h : ∃ c ∈ s, c ∉ V.tokens) :
    optList (s.map (fun c => token_to_id V c)) = none := by
  induction s with
  | nil => simp at h
  | cons c rest ih =>
    by_cases hc : c ∈ V.tokens
    · obtain ⟨i, hi⟩ := lookupIdx_mem V.tokens c hc
      have hi2 : token_to_id V c = some i := hi
      have h2 : ∃ d ∈ rest, d ∉ V.tokens := by
        obtain ⟨d, hd, hdn⟩ := h
        rcases List.mem_cons.mp hd with rfl | hd2
        · exact absurd hc hdn
        · exact ⟨d, hd2, hdn⟩
      simp [optList, hi2, ih h2]
    · have hn : token_to_id V c = none := lookupIdx_not_mem V.tokens c hc
      simp [optList, hn]

theorem buildRow_ok (V : Vocab) (eff pad : Nat) (s : List Char)
    (hlen : s.length ≤ eff) (hvocab : ∀ c ∈ s, c ∈ V.tokens) :
    ∃ ids, optList (s.map (fun c => token_to_id V c)) = some ids ∧ ids.length = s.length ∧
      buildRow V eff pad s = .ok (ids ++ List.replicate (eff - s.length) pad) := by
  obtain ⟨ids, hids, hl⟩ := optList_encode_ok V s hvocab
  refine ⟨ids, hids, hl, ?_⟩
  simp [buildRow, List.length_map, Nat.not_lt.mpr hlen, hids]

theorem buildRow_too_long (V : Vocab) (eff pad : Nat) (s : List Char)
    (h : eff < s.length) :
    buildRow V eff pad s = .error .valueError := by
  simp [buildRow, List.length_map, h]

theorem buildRow_absent (V : Vocab) (eff pad : Nat) (s : List Char)
    (hlen : s.length ≤ eff) (habs : ∃ c ∈ s, c ∉ V.tokens) :
    buildRow V eff pad s = .error .typeError := by
  simp [buildRow, List.length_map, Nat.not_lt.mpr hlen, optList_encode_absent V s habs]

theorem mapRows_ok (V : Vocab) (eff pad : Nat) :
    ∀ names : List (List Char), (∀ s ∈ names, s.length ≤ eff) →
      (∀ s ∈ names, ∀ c ∈ s, c ∈ V.tokens) →
      ∃ mat, mapRows V eff pad names = .ok mat ∧
        List.Forall₂ (fun s row => ∃ ids,
          optList (s.map (fun c => token_to_id V c)) = some ids ∧
          ids.length = s.length ∧
          row = ids ++ List.replicate (eff - s.length) pad ∧
          row.length = eff) names mat := by
  intro names
  induction names with
  | nil => exact fun _ _ => ⟨[], rfl, List.Forall₂.nil⟩
  | cons s rest ih =>
    intro hlen hvocab
    have hsl : s.length ≤ eff := hlen s (by simp)
    obtain ⟨ids, hids, hidl, hrow⟩ := buildRow_ok V eff pad s hsl (hvocab s (by simp))
    obtain ⟨mat, hmat, hfa⟩ := ih (fun t ht => hlen t (by simp [ht]))
      (fun t ht => hvocab t (by simp [ht]))
    refine ⟨(ids ++ List.replicate (eff - s.length) pad) :: mat, ?_, ?_⟩
    · simp [mapRows, hrow, hmat]
    · refine List.Forall₂.cons ⟨ids, hids, hidl, rfl, ?_⟩ hfa
      simp only [List.length_append, List.length_replicate, hidl]
      omega

theorem mapRows_too_long (V : Vocab) (eff pad : Nat) :
    ∀ names : List (List Char), (∀ s ∈ names, ∀ c ∈ s, c ∈ V.tokens) →
      (∃ s ∈ names, eff < s.length) →
      mapRows V eff pad names = .error .valueError := by
  intro names
  induction names with
  | nil => intro _ h; simp at h
  | cons s rest ih =>
    intro hvocab h
    by_cases hs : eff < s.length
    · simp [mapRows, buildRow_too_long V eff pad s hs]
    · have h2 : ∃ t ∈ rest, eff < t.length := by
        obtain ⟨t, ht, htl⟩ := h
        rcases List.mem_cons.mp ht with rfl | ht2
        · exact absurd htl hs
        · exact ⟨t, ht2, htl⟩
      obtain ⟨ids, _, _, hrow⟩ := buildRow_ok V eff pad s (Nat.not_lt.mp hs)
        (hvocab s (by simp))
      simp [mapRows, hrow, ih (fun t ht => hvocab t (by simp [ht])) h2]

theorem mapRows_absent (V : Vocab) (eff pad : Nat) :
    ∀ names : List (List Char), (∀ s ∈ names, s.length ≤ eff) →
      (∃ s ∈ names, ∃ c ∈ s, c ∉ V.tokens) →
      mapRows V eff pad names = .error .typeError := by
  intro names
  induction names with
  | nil => intro _ h; simp at h
  | cons s rest ih =>
    intro hlen h
    by_cases hs : ∀ c ∈ s, c ∈ V.tokens
    · have h2 : ∃ t ∈ rest, ∃ c ∈ t, c ∉ V.tokens := by
        obtain ⟨t, ht, hc⟩ := h
        rcases List.mem_cons.mp ht with rfl | ht2
        · obtain ⟨c, hcs, hcn⟩ := hc
          exact absurd (hs c hcs) hcn
        · exact ⟨t, ht2, hc⟩
      obtain ⟨ids, _, _, hrow⟩ := buildRow_ok V eff pad s (hlen s (by simp)) hs
      simp [mapRows, hrow, ih (fun t ht => hlen t (by simp [ht])) h2]
    · push_neg at hs
      simp [mapRows, buildRow_absent V eff pad s (hlen s (by simp)) hs]

theorem foldl_max_le : ∀ (xs : List Nat) (a : Nat), a ≤ xs.foldl max a := by
  intro xs
  induction xs with
  | nil => intro a; exact Nat.le_refl a
  | cons x xs ih => intro a; exact le_trans (le_max_left a x) (ih (max a x))

theorem mem_le_foldl_max : ∀ (xs : List Nat) (a b : Nat), b ∈ xs → b ≤ xs.foldl max a := by
  intro xs
  induction xs with
  | nil => intro a b hb; cases hb
  | cons x xs ih =>
    intro a b hb
    rcases List.mem_cons.mp hb with rfl | hb2
    · exact le_trans (le_max_right a b) (foldl_max_le xs (max a b))
    · exact ih (max a x) b hb2

theorem foldl_max_cases : ∀ (xs : List Nat) (a : Nat), xs.foldl max a = a ∨ xs.foldl max a ∈ xs := by
  intro xs
  induction xs with
  | nil => intro a; exact Or.inl rfl
  | cons x xs ih =>
    intro a
    rcases ih (max a x) with h | h
    · rcases max_choice a x with hm | hm
      · exact Or.inl (by rw [List.foldl_cons, h, hm])
      · exact Or.inr (by rw [List.foldl_cons, h, hm]; simp)
    · exact Or.inr (by rw [List.foldl_cons]; simp [h])

theorem listMax_ok (l : List Nat) (hne : l ≠ []) :
    ∃ m, listMax l = .ok m ∧ (∀ x ∈ l, x ≤ m) ∧ m ∈ l := by
  cases l with
  | nil => exact absurd rfl hne
  | cons x xs =>
    refine ⟨xs.foldl max x, rfl, ?_, ?_⟩
    · intro y hy
      rcases List.mem_cons.mp hy with rfl | hy2
      · exact foldl_max_le xs y
      · exact mem_le_foldl_max xs x y hy2
    · rcases foldl_max_cases xs x with h | h
      · rw [h]; simp
      · simp [h]

/-- C6: with `max_len` omitted and a non-empty list of in-vocabulary
sequences, `to_matrix` returns one row per sequence; the width is the
longest sequence length in the list, each row starts with the
id-encoding of its sequence and is filled up with the `pad` argument. -/
theorem to_matrix_default_shape (V : Vocab) (names : List (List Char)) (pad : Nat)
    (hne : names ≠ [])
    (hvocab : ∀ s ∈ names, ∀ c ∈ s, c ∈ V.tokens) :
    ∃ maxL mat,
      listMax (names.map List.length) = Except.ok maxL ∧
      (∀ s ∈ names, s.length ≤ maxL) ∧
      (∃ s ∈ names, s.length = maxL) ∧
      to_matrix V names none pad = Except.ok mat ∧
      mat.length = names.length ∧
      List.Forall₂ (fun s row =>
        row.length = maxL ∧
        ∃ ids, optList (s.map (fun c => token_to_id V c)) = some ids ∧
          ids.length = s.length ∧
          row.take s.length = ids ∧
          row.drop s.length = List.replicate (maxL - s.length) pad) names mat := by
  have hmapne : names.map List.length ≠ [] := by simpa using hne
  obtain ⟨maxL, hmax, hbound, hmem⟩ := listMax_ok _ hmapne
  have hble : ∀ s ∈ names, s.length ≤ maxL := fun s hs =>
    hbound _ (List.mem_map_of_mem _ hs)
  obtain ⟨mat, hmat, hfa⟩ := mapRows_ok V maxL pad names hble hvocab
  refine ⟨maxL, mat, hmax, hble, ?_, ?_, ?_, ?_⟩
  · obtain ⟨s, hs, hsl⟩ := List.mem_map.mp hmem
    exact ⟨s, hs, hsl⟩
  · simp [to_matrix, effectiveLen, hmax, hmat]
  · exact hfa.length_eq.symm
  · refine List.Forall₂.imp ?_ hfa
    intro s row hsr
    obtain ⟨ids, hi, hl, hrow, hrl⟩ := hsr
    subst hrow
    refine ⟨hrl, ids, hi, hl, ?_, ?_⟩
    · rw [← hl]
      exact List.take_left ids _
    · rw [← hl]
      exact List.drop_left ids _

/-- A concrete vocabulary for the spec's `to_matrix` example. -/
def V6 : Vocab := ⟨[' ', '#', 'a', 'b', 'c', 'd'], by decide⟩

/-- Witness for C6 at the spec's own example `[" ab", " abcd"]`. -/
theorem to_matrix_default_shape_w :
    ∃ maxL mat,
      listMax ([[' ', 'a', 'b'], [' ', 'a', 'b', 'c', 'd']].map List.length) = Except.ok maxL ∧
      (∀ s ∈ [[' ', 'a', 'b'], [' ', 'a', 'b', 'c', 'd']], s.length ≤ maxL) ∧
      (∃ s ∈ [[' ', 'a', 'b'], [' ', 'a', 'b', 'c', 'd']], s.length = maxL) ∧
      to_matrix V6 [[' ', 'a', 'b'], [' ', 'a', 'b', 'c', 'd']] none 0 = Except.ok mat ∧
      mat.length = [[' ', 'a', 'b'], [' ', 'a', 'b', 'c', 'd']].length ∧
      List.Forall₂ (fun s row =>
        row.length = maxL ∧
        ∃ ids, optList (s.map (fun c => token_to_id V6 c)) = some ids ∧
          ids.length = s.length ∧
          row.take s.length = ids ∧
          row.drop s.length = List.replicate (maxL - s.length) 0)
        [[' ', 'a', 'b'], [' ', 'a', 'b', 'c', 'd']] mat :=
  to_matrix_default_shape V6 [[' ', 'a', 'b'], [' ', 'a', 'b', 'c', 'd']] 0
    (by decide) (by decide)

/-- C7 (amended): for sequences drawn from the vocabulary and a positive
caller-supplied `max_length`, `to_matrix` fails with `ValueError` when
some sequence is strictly longer than `max_length`, and succeeds when
none is.  (For sequences with out-of-vocabulary symbols the code fails
with `TypeError` instead of succeeding — see the counterexample.) -/
theorem to_matrix_maxlen_spec (V : Vocab) (names : List (List Char)) (pad m : Nat)
    (hm : 0 < m)
    (hvocab : ∀ s ∈ names, ∀ c ∈ s, c ∈ V.tokens) :
    ((∃ s ∈ names, m < s.length) →
      to_matrix V names (some m) pad = Except.error PyErr.valueError) ∧
    ((∀ s ∈ names, s.length ≤ m) →
      ∃ mat, to_matrix V names (some m) pad = Except.ok mat) := by
  have heff : effectiveLen names (some m) = .ok m := by
    simp [effectiveLen, Nat.pos_iff_ne_zero.mp hm]
  constructor
  · intro h
    simp [to_matrix, heff, mapRows_too_long V m pad names hvocab h]
  · intro h
    obtain ⟨mat, hmat, _⟩ := mapRows_ok V m pad names h hvocab
    exact ⟨mat, by simp [to_matrix, heff, hmat]⟩

/-- Witness for the amended C7: the sequence `" ab"` is longer than the
supplied `max_length = 2`, and `to_matrix` indeed raises `ValueError`. -/
theorem to_matrix_maxlen_spec_w :
    to_matrix V6 [[' ', 'a', 'b']] (some 2) 0 = Except.error PyErr.valueError :=
  (to_matrix_maxlen_spec V6 [[' ', 'a', 'b']] 0 2 (by decide) (by decide)).1 (by decide)

/-- C8 (amended): an absent symbol is fatal in both encoding contexts,
but only the Sampler raises a `LookupError` kind (`KeyError`); in the
Batcher, `token_to_id.get` yields a missing value and the row assignment
fails with `TypeError`, which is not a `LookupError`. -/
theorem encode_absent_symbol_errors {H : Type} (M : RNNModel H) (V : Vocab)
    (rand : Nat → (Nat → ℚ) → Nat) (seed : List Char) (maxLen : Nat)
    (names : List (List Char)) (max_len : Option Nat) (pad eff : Nat)
    (hseed : ∃ c ∈ seed, c ∉ V.tokens)
    (heff : effectiveLen names max_len = Except.ok eff)
    (hfit : ∀ s ∈ names, s.length ≤ eff)
    (habs : ∃ s ∈ names, ∃ c ∈ s, c ∉ V.tokens) :
    (∃ c, c ∉ V.tokens ∧
      generate_sample V M rand seed maxLen = Except.error (PyErr.keyError c) ∧
      (PyErr.keyError c).isLookup = true) ∧
    (to_matrix V names max_len pad = Except.error PyErr.typeError ∧
      PyErr.typeError.isLookup = false) := by
  constructor
  · obtain ⟨c, hc, herr⟩ := encodeSeed_absent V seed hseed
    exact ⟨c, hc, generate_sample_key_error V M rand seed maxLen _ herr, rfl⟩
  · exact ⟨by simp [to_matrix, heff, mapRows_absent V eff pad names hfit habs], rfl⟩

/-- Witness for the amended C8: seed `"Z"` and batch `["q"]` over `V5`,
both symbols absent from the vocabulary. -/
theorem encode_absent_symbol_errors_w :
    (∃ c, c ∉ V5.tokens ∧
      generate_sample V5 M0 rand0 ['Z'] 3 = Except.error (PyErr.keyError c) ∧
      (PyErr.keyError c).isLookup = true) ∧
    (to_matrix V5 [['q']] (some 4) 0 = Except.error PyErr.typeError ∧
      PyErr.typeError.isLookup = false) :=
  encode_absent_symbol_errors M0 V5 rand0 ['Z'] 3 [['q']] (some 4) 0 4
    (by decide) (by decide) (by decide) (by decide)

/-- A concrete identity stand-in for the natural logarithm. -/
def log0 : ℚ → ℚ := fun x => x

/-- C9: feeding a batch matrix with fewer than 2 columns into the
training graph — whose placeholder is shaped `(None, MAX_LENGTH)` with
`MAX_LENGTH = L ≥ 2` — raises `ValueError` at the feed-shape check
rather than returning a loss. -/
theorem train_step_too_few_columns {H : Type} (M : RNNModel H) (log : ℚ → ℚ)
    (n L C : Nat) (batch : List (List Nat))
    (hL : 2 ≤ L)
    (hne : batch ≠ [])
    (hcols : ∀ r ∈ batch, r.length = C)
    (hC : C < 2) :
    train_step M log n L batch = Except.error PyErr.valueError := by
  cases batch with
  | nil => exact absurd rfl hne
  | cons r rest =>
    have hr : r.length = C := hcols r (by simp)
    have hCL : C ≠ L := by omega
    have hfalse : ((r :: rest).all (fun t => t.length == L)) = false := by
      simp [List.all_cons, hr, hCL]
    simp [train_step, hfalse]

/-- Witness for C9: a one-column batch fed into a graph unrolled to
length 2. -/
theorem train_step_too_few_columns_w :
    train_step M0 log0 2 2 [[5]] = Except.error PyErr.valueError :=
  train_step_too_few_columns M0 log0 2 2 1 [[5]] (by decide) (by decide)
    (by decide) (by decide)

theorem listSum_getD (l : List ℚ) : l.sum = ∑ i in Finset.range l.length, l.getD i 0 := by
  induction l with
  | nil => simp
  | cons a l ih =>
    rw [List.sum_cons, List.length_cons, Finset.sum_range_succ']
    simp only [List.getD_cons_succ, List.getD_cons_zero, ← ih]
    rw [add_comm]

theorem getD_map {α β : Type} (f : α → β) (d : α) (d2 : β) :
    ∀ (l : List α) (i : Nat), i < l.length → (l.map f).getD i d2 = f (l.getD i d) := by
  intro l
  induction l with
  | nil => intro i hi; simp at hi
  | cons a l ih =>
    intro i hi
    cases i with
    | zero => simp
    | succ j =>
      simp only [List.map_cons, List.getD_cons_succ]
      apply ih
      simp at hi
      omega

theorem getD_zipWith {α β γ : Type} (f : α → β → γ) (da : α) (db : β) (dc : γ) :
    ∀ (a : List α) (b : List β) (i : Nat), i < a.length → i < b.length →
      (List.zipWith f a b).getD i dc = f (a.getD i da) (b.getD i db) := by
  intro a
  induction a with
  | nil => intro b i hi _; simp at hi
  | cons x xs ih =>
    intro b i hi hib
    cases b with
    | nil => simp at hib
    | cons y ys =>
      cases i with
      | zero => simp
      | succ j =>
        simp only [List.zipWith_cons_cons, List.getD_cons_succ]
        apply ih
        · simp at hi; omega
        · simp at hib; omega

theorem getD_dropLast {α : Type} (d : α) :
    ∀ (l : List α) (i : Nat), i < l.length - 1 → l.dropLast.getD i d = l.getD i d := by
  intro l
  induction l with
  | nil => intro i hi; simp at hi
  | cons a l ih =>
    intro i hi
    cases l with
    | nil => simp at hi
    | cons b l2 =>
      rw [show (a :: b :: l2).dropLast = a :: (b :: l2).dropLast from rfl]
      cases i with
      | zero => simp
      | succ j =>
        simp only [List.getD_cons_succ]
        apply ih
        simp at hi ⊢
        omega

theorem getD_drop {α : Type} (d : α) :
    ∀ (l : List α) (k i : Nat), (l.drop k).getD i d = l.getD (k + i) d := by
  intro l
  induction l with
  | nil => intro k i; simp
  | cons a l ih =>
    intro k i
    cases k with
    | zero => simp
    | succ j =>
      rw [List.drop_succ_cons, ih j i,
        show j + 1 + i = (j + i) + 1 from by omega, List.getD_cons_succ]

theorem zipWith_flatten {α β γ : Type} (f : α → β → γ)
    (A : List (List α)) (B : List (List β))
    (h : List.Forall₂ (fun a b => a.length = b.length) A B) :
    List.zipWith f A.flatten B.flatten = (List.zipWith (List.zipWith f) A B).flatten := by
  induction h with
  | nil => rfl
  | cons hab htail ih =>
    simp only [List.flatten_cons, List.zipWith_cons_cons]
    rw [List.zipWith_append _ _ _ _ _ hab, ih]

theorem forall₂_map_map {α β γ : Type} (R : β → γ → Prop) (f : α → β) (g : α → γ) :
    ∀ l : List α, (∀ x ∈ l, R (f x) (g x)) → List.Forall₂ R (l.map f) (l.map g) := by
  intro l
  induction l with
  | nil => intro _; exact List.Forall₂.nil
  | cons a l ih =>
    intro h
    exact List.Forall₂.cons (h a (by simp)) (ih (fun x hx => h x (by simp [hx])))

theorem sum_map_const {α : Type} (c : Nat) :
    ∀ l : List α, (l.map (fun _ => c)).sum = l.length * c := by
  intro l
  induction l with
  | nil => simp
  | cons a l ih =>
    simp only [List.map_cons, List.sum_cons, List.length_cons, ih]
    ring

theorem zipWith_map_same {α β γ δ : Type} (f : β → γ → δ) (g : α → β) (h : α → γ) :
    ∀ l : List α, List.zipWith f (l.map g) (l.map h) = l.map (fun x => f (g x) (h x)) := by
  intro l
  induction l with
  | nil => rfl
  | cons a l ih => simp [ih]

theorem row_zip_sum {H : Type} (M : RNNModel H) (log : ℚ → ℚ) (n : Nat) (r : List Nat) :
    (List.zipWith (fun a p => categorical_crossentropy log n a p)
      ((r.drop 1).map (fun k => one_hot n k)) (predicted_probas_code M r)).sum
    = ∑ t in Finset.range (r.length - 1),
        categorical_crossentropy log n (one_hot n (r.getD (t + 1) 0))
          ((unrollAll M r M.h0).getD t zeroDist) := by
  have hA : ((r.drop 1).map (fun k => one_hot n k)).length = r.length - 1 := by
    simp
  have hP : (predicted_probas_code M r).length = r.length - 1 := by
    simp [predicted_probas_code, unrollAll_length]
  have hZ : (List.zipWith (fun a p => categorical_crossentropy log n a p)
      ((r.drop 1).map (fun k => one_hot n k)) (predicted_probas_code M r)).length
      = r.length - 1 := by
    rw [List.length_zipWith, hA, hP, min_self]
  rw [listSum_getD, hZ]
  apply Finset.sum_congr rfl
  intro t ht
  have ht2 : t < r.length - 1 := Finset.mem_range.mp ht
  rw [getD_zipWith (fun a p => categorical_crossentropy log n a p) zeroDist zeroDist 0 _ _ t
    (by rw [hA]; exact ht2) (by rw [hP]; exact ht2)]
  congr 1
  · rw [getD_map (fun k => one_hot n k) 0 zeroDist _ t (by simp; omega),
      getD_drop 0 r 1 t, Nat.add_comm 1 t]
  · simp only [predicted_probas_code]
    rw [getD_dropLast zeroDist _ t (by rw [unrollAll_length]; exact ht2)]

theorem loss_eq_sum {H : Type} (M : RNNModel H) (log : ℚ → ℚ) (n L : Nat)
    (batch : List (List Nat)) (hcols : ∀ r ∈ batch, r.length = L) :
    loss log M n batch
      = (∑ r in Finset.range batch.length, ∑ t in Finset.range (L - 1),
          categorical_crossentropy log n (one_hot n ((batch.getD r []).getD (t + 1) 0))
            ((unrollAll M (batch.getD r []) M.h0).getD t zeroDist))
        / ((batch.length * (L - 1) : Nat) : ℚ) := by
  have hans : answers_matrix n batch
      = (batch.map (fun r => (r.drop 1).map (fun k => one_hot n k))).flatten := by
    simp only [answers_matrix]
    rw [List.map_flatten, List.map_map]
    rfl
  have hfa : List.Forall₂ (fun (a : List (Nat → ℚ)) (p : List (Nat → ℚ)) => a.length = p.length)
      (batch.map (fun r => (r.drop 1).map (fun k => one_hot n k)))
      (batch.map (fun r => predicted_probas_code M r)) := by
    apply forall₂_map_map
    intro r _
    simp [predicted_probas_code, unrollAll_length]
  have hZ : List.zipWith (fun a p => categorical_crossentropy log n a p)
        (answers_matrix n batch) (predictions_matrix M batch)
      = (batch.map (fun r => List.zipWith (fun a p => categorical_crossentropy log n a p)
          ((r.drop 1).map (fun k => one_hot n k)) (predicted_probas_code M r))).flatten := by
    rw [hans,
      show predictions_matrix M batch
        = (batch.map (fun r => predicted_probas_code M r)).flatten from rfl,
      zipWith_flatten _ _ _ hfa, zipWith_map_same]
  have hsum : ((batch.map (fun r => List.zipWith (fun a p => categorical_crossentropy log n a p)
        ((r.drop 1).map (fun k => one_hot n k)) (predicted_probas_code M r))).flatten).sum
      = ∑ r in Finset.range batch.length, ∑ t in Finset.range (L - 1),
          categorical_crossentropy log n (one_hot n ((batch.getD r []).getD (t + 1) 0))
            ((unrollAll M (batch.getD r []) M.h0).getD t zeroDist) := by
    rw [List.sum_flatten, List.map_map, listSum_getD, List.length_map]
    apply Finset.sum_congr rfl
    intro r hr
    have hrb : r < batch.length := Finset.mem_range.mp hr
    rw [getD_map _ [] 0 batch r hrb]
    have hmem : batch.getD r [] ∈ batch := by
      rw [List.getD_eq_getElem batch [] hrb]
      exact List.getElem_mem hrb
    have hrl : (batch.getD r []).length = L := hcols _ hmem
    simp only [Function.comp]
    rw [row_zip_sum, hrl]
  have h1 : (answers_matrix n batch).length = batch.length * (L - 1) := by
    rw [hans, List.length_flatten, List.map_map]
    have hcong : batch.map (List.length ∘ fun r => (r.drop 1).map (fun k => one_hot n k))
        = batch.map (fun _ => L - 1) := by
      apply List.map_congr_left
      intro r hr
      simp [Function.comp, hcols r hr]
    rw [hcong, sum_map_const]
  have h2 : (predictions_matrix M batch).length = batch.length * (L - 1) := by
    rw [show predictions_matrix M batch
        = (batch.map (fun r => predicted_probas_code M r)).flatten from rfl,
      List.length_flatten, List.map_map]
    have hcong : batch.map (List.length ∘ fun r => predicted_probas_code M r)
        = batch.map (fun _ => L - 1) := by
      apply List.map_congr_left
      intro r hr
      simp [Function.comp, predicted_probas_code, unrollAll_length, hcols r hr]
    rw [hcong, sum_map_const]
  have hlenZ : (List.zipWith (fun a p => categorical_crossentropy log n a p)
        (answers_matrix n batch) (predictions_matrix M batch)).length
      = batch.length * (L - 1) := by
    rw [List.length_zipWith, h1, h2, min_self]
  simp only [loss, listMean]
  rw [hlenZ, hZ, hsum]

/-- C1: for every batch of `R` rows and `L ≥ 2` columns of valid token
ids, the training step returns as its loss the arithmetic mean, over the
`R * (L-1)` flattened positions, of the categorical cross-entropy
between the distribution predicted at step `t` and the one-hot encoding
of the token in column `t+1` of the same row; no position is excluded,
pad targets included. -/
theorem train_step_loss_is_mean_crossentropy {H : Type} (M : RNNModel H) (log : ℚ → ℚ)
    (n L : Nat) (batch : List (List Nat))
    (hL2 : 2 ≤ L)
    (hne : batch ≠ [])
    (hcols : ∀ r ∈ batch, r.length = L)
    (hvalid : ∀ r ∈ batch, ∀ id ∈ r, id < n) :
    train_step M log n L batch
      = Except.ok ((∑ r in Finset.range batch.length, ∑ t in Finset.range (L - 1),
          categorical_crossentropy log n (one_hot n ((batch.getD r []).getD (t + 1) 0))
            ((unrollAll M (batch.getD r []) M.h0).getD t zeroDist))
        / ((batch.length * (L - 1) : Nat) : ℚ)) := by
  have hall : (batch.all (fun t => t.length == L)) = true := by
    rw [List.all_eq_true]
    intro r hr
    simp [hcols r hr]
  simp [train_step, hall, loss_eq_sum M log n L batch hcols]

/-- Witness for C1: the 1-row, 2-column batch `[[0, 1]]` with `n = 2`
classes on the trivial network `M0`. -/
theorem train_step_loss_is_mean_crossentropy_w :
    train_step M0 log0 2 2 [[0, 1]]
      = Except.ok ((∑ r in Finset.range (List.length [[0, 1]]), ∑ t in Finset.range (2 - 1),
          categorical_crossentropy log0 2 (one_hot 2 (([[0, 1]].getD r []).getD (t + 1) 0))
            ((unrollAll M0 ([[0, 1]].getD r []) M0.h0).getD t zeroDist))
        / ((List.length [[0, 1]] * (2 - 1) : Nat) : ℚ)) :=
  train_step_loss_is_mean_crossentropy M0 log0 2 2 [[0, 1]] (by decide) (by decide)
    (by decide) (by decide)
